import Mathlib

/-!
Verification development for the pyciemss OUU (optimization under uncertainty)
engine: a shallow embedding of `pyciemss/ouu/ouu.py` and
`pyciemss/interruptions.py`, with theorems settling the specification claims.

Numeric modelling: Python floats are rational values, so scalars are embedded
as `ℚ` wherever the code only adds, multiplies, compares and divides; the two
scalars derived through `np.linalg.norm` (a Euclidean norm, hence a square
root) live in `ℝ`.  External collaborators (the pyro sampler, the scipy local
minimizer, the random draws) are passed in as explicit function parameters,
so theorems quantify over every possible behaviour of those collaborators.
-/

/-! ## Risk measures (`pyciemss/ouu/risk_measures.py`) -/

/-- Arithmetic mean of a list of rationals (`np.mean`); `0` on the empty
list. -/
def listMean (l : List ℚ) : ℚ := l.sum / l.length

/-- Modelled from the spec: `alpha_quantile`, the empirical quantile used by
`alpha_superquantile` (the module `pyciemss/ouu/risk_measures.py` itself is
absent from the sources; only its import in `ouu.py` is visible).  Spec §4.4
fixes the boundary behaviour — the level near `1` picks out the sample
maximum and the level near `0` keeps the whole sample — so the empirical
quantile at level `alpha` of an `n`-element sample is the sorted sample's
entry at position `⌈alpha·n⌉ - 1` (counted from zero). -/
def alpha_quantile (samples : List ℚ) (alpha : ℚ) : ℚ :=
  (List.insertionSort (· ≤ ·) samples).getD
    ((⌈alpha * (samples.length : ℚ)⌉).toNat - 1) 0

/-- Modelled from the spec: `alpha_superquantile` (superquantile / CVaR,
spec §4.4): the mean of the sample values at or above the empirical quantile
(the upper tail average).  The spec's parenthetical "(1−α)-quantile" wording
contradicts its own boundary clauses (α→1 must give the sample maximum and
α→0 the sample mean) and the glossary's "mean of the values at or beyond a
given quantile threshold", so the threshold is the quantile at level `alpha`,
which matches those clauses and the standard superquantile definition. -/
def alpha_superquantile (samples : List ℚ) (alpha : ℚ) : ℚ :=
  listMean (samples.filter (fun z => alpha_quantile samples alpha ≤ z))

/-! ## Interruptions (`pyciemss/interruptions.py`)

A chirho `Intervention` value is either a constant tensor or a function of
the old parameter value; `chirho.interventional.ops.intervene` applies a
callable intervention to the observed value and replaces it otherwise. -/

/-- An intervention assignment: a constant new value, or a function of the
old value (`chirho.interventional.ops.Intervention`). -/
inductive Intervention where
  | const (c : ℚ)
  | func (f : ℚ → ℚ)

/-- The `chirho.interventional.ops.intervene` operation as used by
`_ParameterIntervention`: a callable acts on the old value, anything else
replaces it. -/
def intervene (old : ℚ) : Intervention → ℚ
  | Intervention.const c => c
  | Intervention.func f => f old

/-- The trigger of a parameter intervention: a fixed-time `StaticEvent` or a
sign-crossing `ZeroEvent` (`chirho.dynamical.handlers.interruption`).  The
zero event carries its event function of time and state. -/
inductive InterventionEvent where
  | staticEvent (time : ℚ)
  | zeroEvent (event_fn : ℚ → (String → ℚ) → ℚ)

/-- A parameter-intervention effect handler: the trigger plus the mapping
from parameter name to intervention (`_ParameterIntervention`). -/
structure ParameterInterventionHandler where
  event : InterventionEvent
  intervention : List (String × Intervention)

/-- Handler builder `StaticParameterIntervention` from
`pyciemss/interruptions.py`: a handler whose trigger is a `StaticEvent` at
the given time. -/
def StaticParameterIntervention (time : ℚ)
    (intervention : List (String × Intervention)) : ParameterInterventionHandler :=
  ⟨InterventionEvent.staticEvent time, intervention⟩

/-- Handler builder `DynamicParameterIntervention` from
`pyciemss/interruptions.py`: a handler whose trigger is a `ZeroEvent` on the
given event function. -/
def DynamicParameterIntervention (event_fn : ℚ → (String → ℚ) → ℚ)
    (intervention : List (String × Intervention)) : ParameterInterventionHandler :=
  ⟨InterventionEvent.zeroEvent event_fn, intervention⟩

/-- The body of `_ParameterIntervention`'s `callback`: the live model object
is its mapping from attribute names to parameter values; for each
(target, intervention) pair, in order, the current value of the named
attribute is read, the intervention is applied to it, and the result is
written back.  The returned mapping is the same model object as mutated, the
one the remainder of the simulation run keeps using. -/
def parameterInterventionFire (intervention : List (String × Intervention))
    (dynamics_obj : String → ℚ) : String → ℚ :=
  intervention.foldl
    (fun m pr => Function.update m pr.1 (intervene (m pr.1) pr.2)) dynamics_obj

/-! ## Forward uncertainty propagation (`computeRisk` in `pyciemss/ouu/ouu.py`)

The pyro sampling machinery (`pyro.infer.Predictive`) is an external
collaborator: it is modelled as an explicit function argument `predictive`
taking the global pseudo-random-number-generator state, the wrapped model
description (solver context plus intervention handlers, the argument of
`pyro.infer.Predictive`), the guide and the sample count, and returning the
collection of named sample trajectories (an abstract type `σ`).  Theorems
quantify over every such collaborator. -/

/-- Python exception kinds relevant to the embedded code paths. -/
inductive PyError where
  | valueError
  | indexError
deriving DecidableEq

/-- Global pyro RNG state transition of `pyro.set_rng_seed`: the state
becomes the given seed. -/
def pyroSetRngSeed (seed : ℕ) : ℕ := seed

/-- Model of `torch.arange(start, end, step)`: the points
`start, start + step, ...` strictly below `end` (empty for a non-positive
step, where torch would reject the call). -/
def torchArange (a b s : ℚ) : List ℚ :=
  (List.range (if 0 < s then (⌈(b - a) / s⌉).toNat else 0)).map
    (fun i => a + (i : ℚ) * s)

/-- Everything `computeRisk.propagate_uncertainty` closes over in
`wrapped_model`: the model callable run with `is_traced=True` inside the
`TorchDiffEq(method, options)` solver context with every intervention
handler entered on the `ExitStack`.  The model callable has abstract type
`μ` and the solver options dictionary abstract type `ω`. -/
structure WrappedModelSpec (μ ω : Type) where
  model : μ
  solver_method : String
  solver_options : ω
  handlers : List ParameterInterventionHandler
  start_time : ℚ
  end_time : ℚ
  logging_times : List ℚ
  is_traced : Bool

/-- State of a `computeRisk` instance (`computeRisk.__init__`): `μ` is the
type of the model callable, `γ` of the inference guide, `ω` of the solver
options dictionary and `σ` of the sample collections returned by the
sampler.  The interventions dictionary iterates in insertion order, hence a
list of (time, parameter-name) pairs with distinct keys. -/
structure ComputeRisk (μ γ ω σ : Type) where
  model : μ
  interventions : List (ℚ × String)
  qoi : σ → List ℚ
  risk_measure : List ℚ → ℚ
  num_samples : ℕ
  start_time : ℚ
  end_time : ℚ
  guide : Option γ
  solver_method : String
  solver_options : ω
  logging_times : List ℚ

/-- The `computeRisk` constructor: stores its arguments and computes
`logging_times = torch.arange(start_time + logging_step_size, end_time,
logging_step_size)`. -/
def ComputeRisk.init {μ γ ω σ : Type} (model : μ) (interventions : List (ℚ × String))
    (qoi : σ → List ℚ) (end_time logging_step_size : ℚ) (start_time : ℚ)
    (risk_measure : List ℚ → ℚ) (num_samples : ℕ) (guide : Option γ)
    (solver_method : String) (solver_options : ω) : ComputeRisk μ γ ω σ :=
  { model := model, interventions := interventions, qoi := qoi,
    risk_measure := risk_measure, num_samples := num_samples,
    start_time := start_time, end_time := end_time, guide := guide,
    solver_method := solver_method, solver_options := solver_options,
    logging_times :=
      torchArange (start_time + logging_step_size) end_time logging_step_size }

/-- The handler-building loop of `propagate_uncertainty`: for each
`(time, param)` entry of the interventions dictionary, in iteration order,
build `StaticParameterIntervention(time, {param: x[count]})` and increment
`count`.  Indexing `x[count]` out of range raises numpy's `IndexError`. -/
def buildInterventionHandlersAux (x : List ℚ) :
    List (ℚ × String) → ℕ → Except PyError (List ParameterInterventionHandler)
  | [], _ => Except.ok []
  | (time, param) :: rest, count =>
    match x[count]? with
    | none => Except.error PyError.indexError
    | some xc =>
      match buildInterventionHandlersAux x rest (count + 1) with
      | Except.error e => Except.error e
      | Except.ok hs =>
        Except.ok (StaticParameterIntervention time [(param, Intervention.const xc)] :: hs)

/-- The handler list `propagate_uncertainty` builds when `x` is long enough:
the i-th (time, parameter) pair combined with `x[i]`; surplus components of
`x` are never read. -/
def handlersFromVector (interventions : List (ℚ × String)) (x : List ℚ) :
    List ParameterInterventionHandler :=
  List.zipWith (fun tp xc => StaticParameterIntervention tp.1 [(tp.2, Intervention.const xc)])
    interventions x

/-- The `wrapped_model` closure of `propagate_uncertainty` for a given
handler list. -/
def wrappedModel {μ γ ω σ : Type} (cr : ComputeRisk μ γ ω σ)
    (handlers : List ParameterInterventionHandler) : WrappedModelSpec μ ω :=
  { model := cr.model, solver_method := cr.solver_method,
    solver_options := cr.solver_options, handlers := handlers,
    start_time := cr.start_time, end_time := cr.end_time,
    logging_times := cr.logging_times, is_traced := true }

/-- The body of `computeRisk.propagate_uncertainty`: reset the pyro RNG seed
to 0, build the intervention handlers from `x` (any indexing error raised
there propagates before any sampling work), and sample
`pyro.infer.Predictive(wrapped_model, guide, num_samples)` under the
freshly-reset RNG state. -/
def ComputeRisk.propagate_uncertainty {μ γ ω σ : Type} (cr : ComputeRisk μ γ ω σ)
    (predictive : ℕ → WrappedModelSpec μ ω → Option γ → ℕ → σ)
    (rng_state : ℕ) (x : List ℚ) : Except PyError σ :=
  let seeded := pyroSetRngSeed 0
  match buildInterventionHandlersAux x cr.interventions 0 with
  | Except.error e => Except.error e
  | Except.ok handlers =>
    Except.ok (predictive seeded (wrappedModel cr handlers) cr.guide cr.num_samples)

/-- The body of `computeRisk.__call__`: forward uncertainty propagation,
then the quantity-of-interest extraction, then the risk-measure
reduction. -/
def ComputeRisk.call {μ γ ω σ : Type} (cr : ComputeRisk μ γ ω σ)
    (predictive : ℕ → WrappedModelSpec μ ω → Option γ → ℕ → σ)
    (rng_state : ℕ) (x : List ℚ) : Except PyError ℚ :=
  match cr.propagate_uncertainty predictive rng_state x with
  | Except.error e => Except.error e
  | Except.ok samples => Except.ok (cr.risk_measure (cr.qoi samples))

/-- Concrete `computeRisk` instance with a single declared
(time, parameter) pair, used to instantiate theorems at explicit inputs. -/
def demoComputeRisk : ComputeRisk Unit Unit Unit Unit :=
  ComputeRisk.init () [(1, "beta")] (fun _ => []) 10 1 0 (fun _ => 0) 1000 none
    "dopri5" ()

/-- Concrete `computeRisk` instance with two declared (time, parameter)
pairs. -/
def demoComputeRisk2 : ComputeRisk Unit Unit Unit Unit :=
  ComputeRisk.init () [(1, "beta"), (2, "gamma")] (fun _ => []) 10 1 0 (fun _ => 0)
    1000 none "dopri5" ()

/-- Concrete sampling collaborator for instantiating theorems. -/
def demoPredictive : ℕ → WrappedModelSpec Unit Unit → Option Unit → ℕ → Unit :=
  fun _ _ _ _ => ()

/-! ## Random displacement and policy optimization (`RandomDisplacementBounds`,
`solveOUU` in `pyciemss/ouu/ouu.py`)

`scipy.optimize.basinhopping` and the COBYLA local minimizer are external
collaborators.  The local minimizer is modelled as an arbitrary function of
the minimizer settings, the objective and the start point; the uniform
random draws of the displacement generator and the Metropolis coin flips of
basin-hopping are modelled as arbitrary realization oracles. -/

/-- Model of `np.clip` on scalars: values below the lower bound become the
lower bound, values above the upper bound the upper bound
(`np.minimum(a_max, np.maximum(a, a_min))`). -/
def npClip (v lo hi : ℚ) : ℚ := min (max v lo) hi

/-- Squared-free Euclidean norm `np.linalg.norm` of a rational vector, as a
real number. -/
noncomputable def euclNormQ (v : List ℚ) : ℝ :=
  Real.sqrt ((v.map (fun q => ((q : ℝ)) ^ 2)).sum)

/-- The step size stored by `RandomDisplacementBounds.__init__`.  The guard
is Python's `if stepsize:`, so `None` and a zero float are both falsy and
fall back to 30% of the Euclidean extent of the bounds (exact reals have no
NaN, the only other falsy-adjacent float corner). -/
noncomputable def RandomDisplacementBounds.initStepsize (xmin xmax : List ℚ)
    (stepsize : Option ℝ) : ℝ :=
  match stepsize with
  | some s =>
    if s = 0 then (0.3 : ℝ) * euclNormQ (List.zipWith (fun a b => a - b) xmax xmin)
    else s
  | none => (0.3 : ℝ) * euclNormQ (List.zipWith (fun a b => a - b) xmax xmin)

/-- The body of `RandomDisplacementBounds.__call__` for one realization `u`
of the uniform displacement draw: `np.clip(x + u, xmin, xmax)`
component-wise. -/
def RandomDisplacementBounds.call (xmin xmax x u : List ℚ) : List ℚ :=
  List.zipWith (fun v lh => npClip v lh.1 lh.2)
    (List.zipWith (fun a b => a + b) x u)
    (List.zipWith Prod.mk xmin xmax)

/-- Component-wise box membership: every component of `v` lies within the
corresponding closed interval of `lb`/`ub`. -/
def inBox (lb ub v : List ℚ) : Prop :=
  ∀ i, i < v.length → lb.getD i 0 ≤ v.getD i 0 ∧ v.getD i 0 ≤ ub.getD i 0

instance (lb ub v : List ℚ) : Decidable (inBox lb ub v) :=
  Nat.decidableBallLT v.length _

/-- Settings dictionary `solve()` hands to the local minimizer
(`minimizer_kwargs` rebuilt inside `solveOUU.solve`); `κ` is the abstract
type of the caller's constraints tuple.  The tqdm progress callback is a
side channel that must not affect correctness (spec §5) and is omitted. -/
structure MinimizerSettings (κ : Type) where
  constraints : κ
  method : String
  tol : ℚ
  rhobeg : ℝ
  disp : Bool
  maxiter : ℕ
  catol : ℚ

/-- State of a `solveOUU` instance after `__init__`; `δ` is the abstract
type of the `minimizer_kwargs` constructor argument.  The Python assignment
`self.minimizer_kwargs = minimizer_kwargs.update({...})` stores the return
value of `dict.update`, which is `None`. -/
structure SolveOUU (κ δ : Type) where
  x0 : List ℚ
  objfun : List ℚ → ℚ
  constraints : κ
  minimizer_kwargs : Option δ
  optimizer_algorithm : String
  maxiter : ℕ
  maxfeval : ℕ
  u_bounds : List ℚ × List ℚ

/-- The `solveOUU` constructor. -/
def SolveOUU.init {κ δ : Type} (x0 : List ℚ) (objfun : List ℚ → ℚ)
    (constraints : κ) (minimizer_kwargs : δ) (optimizer_algorithm : String)
    (maxfeval maxiter : ℕ) (u_bounds : List ℚ × List ℚ) : SolveOUU κ δ :=
  { x0 := x0, objfun := objfun, constraints := constraints,
    -- dict.update mutates its receiver and returns None; the attribute
    -- stores that None, and the passed-in kwargs are otherwise dropped
    minimizer_kwargs := none,
    optimizer_algorithm := optimizer_algorithm, maxiter := maxiter,
    maxfeval := maxfeval, u_bounds := u_bounds }

/-- The local-minimizer settings `solveOUU.solve` rebuilds from scratch:
COBYLA, `tol=1e-5`, `rhobeg` at 10% of the box diagonal, `maxiter` equal to
the `maxfeval` budget and `catol=1e-5`, plus the caller's constraints. -/
noncomputable def solveMinimizerSettings {κ δ : Type} (s : SolveOUU κ δ) :
    MinimizerSettings κ :=
  { constraints := s.constraints, method := "COBYLA", tol := 1/100000,
    rhobeg :=
      (0.1 : ℝ) * euclNormQ (List.zipWith (fun a b => a - b) s.u_bounds.2 s.u_bounds.1),
    disp := false, maxiter := s.maxfeval, catol := 1/100000 }

/-- One basin-hopping trajectory state: current point and objective value,
and the lowest point and value seen so far. -/
structure BHState where
  x : List ℚ
  fx : ℚ
  bestx : List ℚ
  bestf : ℚ

/-- One global iteration of `scipy.optimize.basinhopping`'s documented
algorithm (spec §4.5): perturb the current point with `take_step`, run the
local minimizer from the perturbed point, accept the new minimum if it
improves or if the Metropolis draw (`acceptWorse`, a function of the
objective increase) accepts it, and update the global best, which scipy
tracks regardless of acceptance. -/
def bhStep (objfun : List ℚ → ℚ) (localMin : (List ℚ → ℚ) → List ℚ → List ℚ)
    (take_step : List ℚ → List ℚ) (acceptWorse : ℚ → Bool) (st : BHState) : BHState :=
  let xprop := take_step st.x
  let xnew := localMin objfun xprop
  let fnew := objfun xnew
  let st' :=
    if fnew < st.fx ∨ acceptWorse (fnew - st.fx) = true then
      { st with x := xnew, fx := fnew }
    else st
  if fnew < st'.bestf then { st' with bestx := xnew, bestf := fnew } else st'

/-- Model of `scipy.optimize.basinhopping(objfun, x0, niter, minimizer_kwargs,
take_step, ...)`: an initial local minimization from `x0`, then `niter`
global iterations, returning the lowest point found and its objective value.
The local minimizer, the per-iteration displacement realizations and the
Metropolis coin flips are oracles; the temperature `T=1.5` and the step-size
adaptation `interval=2` only shape the distributions those oracles are drawn
from. -/
def basinhopping (objfun : List ℚ → ℚ) (localMin : (List ℚ → ℚ) → List ℚ → List ℚ)
    (take_step : ℕ → List ℚ → List ℚ) (acceptWorse : ℕ → ℚ → Bool)
    (x0 : List ℚ) (niter : ℕ) : List ℚ × ℚ :=
  let xmin0 := localMin objfun x0
  let f0 := objfun xmin0
  let final :=
    (List.range niter).foldl
      (fun st i => bhStep objfun localMin (take_step i) (acceptWorse i) st)
      { x := xmin0, fx := f0, bestx := xmin0, bestf := f0 }
  (final.bestx, final.bestf)

/-- The body of `solveOUU.solve()`: rebuild the minimizer settings, create a
`RandomDisplacementBounds` over the box bounds as `take_step`, and run
basin-hopping from `x0` for `maxiter` global iterations.  `displacement i`
is the realization of the uniform draw of the i-th call to the step
generator. -/
noncomputable def SolveOUU.solve {κ δ : Type} (s : SolveOUU κ δ)
    (localMin : MinimizerSettings κ → (List ℚ → ℚ) → List ℚ → List ℚ)
    (displacement : ℕ → List ℚ) (acceptWorse : ℕ → ℚ → Bool) : List ℚ × ℚ :=
  let mkw := solveMinimizerSettings s
  let take_step := fun i x =>
    RandomDisplacementBounds.call s.u_bounds.1 s.u_bounds.2 x (displacement i)
  basinhopping s.objfun (localMin mkw) take_step acceptWorse s.x0 s.maxiter

/-- Concrete `solveOUU` instance (unit box, zero global iterations) for
instantiating theorems at explicit inputs. -/
def demoSolveOUU : SolveOUU Unit Unit :=
  SolveOUU.init [0] (fun _ => 0) () () "basinhopping" 100 0 ([0], [1])

/-- Concrete `solveOUU` instance with three global iterations. -/
def demoSolveOUU2 : SolveOUU Unit Unit :=
  SolveOUU.init [0] (fun _ => 0) () () "basinhopping" 100 3 ([0], [1])

/-- A local-minimizer collaborator that always returns the out-of-bounds
point `[2]` (nothing in `solve()` constrains the local minimizer to the
box). -/
def demoLocalMinOut : MinimizerSettings Unit → (List ℚ → ℚ) → List ℚ → List ℚ :=
  fun _ _ _ => [2]

/-- A local-minimizer collaborator whose outputs stay inside the unit
box. -/
def demoLocalMinIn : MinimizerSettings Unit → (List ℚ → ℚ) → List ℚ → List ℚ :=
  fun _ _ _ => [1]

/-- Concrete displacement-draw realizations. -/
def demoDisplacement : ℕ → List ℚ := fun _ => [0]

/-- Concrete Metropolis-draw realizations (always reject worsening moves). -/
def demoAcceptWorse : ℕ → ℚ → Bool := fun _ _ => false

/-- Concrete intervention assignment with one constant and one callable
intervention, used to instantiate theorems. -/
def demoInterventionAssignment : List (String × Intervention) :=
  [("beta", Intervention.const 2), ("gamma", Intervention.func (fun old => old + 1))]

/-- Concrete live model object whose attributes all hold 10. -/
def demoDynamicsObj : String → ℚ := fun _ => 10

/-! ## Theorems -/

/-- Characterization of the handler-building loop: starting from counter
`c`, it succeeds exactly when the remaining pairs fit into the remaining
components of `x`, zipping pairs with components, and otherwise raises
numpy's `IndexError` at the first out-of-range index. -/
theorem buildInterventionHandlersAux_eq (x : List ℚ) :
    ∀ (l : List (ℚ × String)) (c : ℕ),
      buildInterventionHandlersAux x l c =
        if l.length ≤ x.length - c then
          Except.ok (handlersFromVector l (x.drop c))
        else Except.error PyError.indexError
  | [], c => by
    simp [buildInterventionHandlersAux, handlersFromVector]
  | (time, param) :: rest, c => by
    rw [buildInterventionHandlersAux]
    by_cases hc : c < x.length
    · rw [List.getElem?_eq_getElem hc]
      rw [buildInterventionHandlersAux_eq x rest (c + 1)]
      by_cases hlen : rest.length ≤ x.length - (c + 1)
      · rw [if_pos hlen, if_pos (by simp only [List.length_cons]; omega)]
        rw [List.drop_eq_getElem_cons hc]
        rfl
      · rw [if_neg hlen, if_neg (by simp only [List.length_cons]; omega)]
    · have hnone : x[c]? = none := by
        rw [List.getElem?_eq_none_iff]
        omega
      rw [hnone]
      rw [if_neg (by simp only [List.length_cons]; omega)]

/-- C1 (counterexample): with one declared (time, parameter) pair, the
candidate vector `[1/2, 7/10]` has the wrong length (two components), yet
`propagate_uncertainty` raises nothing at all — it returns the sample
collection — contradicting the claimed `ValueError`. -/
theorem c1_counterexample :
    ([(1 : ℚ)/2, 7/10] : List ℚ).length ≠ demoComputeRisk.interventions.length
    ∧ ComputeRisk.propagate_uncertainty demoComputeRisk demoPredictive 5 [1/2, 7/10]
        = Except.ok () := by
  exact ⟨by decide, rfl⟩

/-- C1 (amended): `propagate_uncertainty` performs no length validation and
never raises `ValueError`.  If `x` has at least one component per declared
(time, parameter) pair, evaluation proceeds (surplus components are silently
ignored); if `x` is shorter, indexing `x` raises numpy's `IndexError` while
building the handlers, before any sampling work. -/
theorem c1_no_length_validation {μ γ ω σ : Type} (cr : ComputeRisk μ γ ω σ)
    (predictive : ℕ → WrappedModelSpec μ ω → Option γ → ℕ → σ)
    (rng_state : ℕ) (x : List ℚ) :
    cr.propagate_uncertainty predictive rng_state x =
      if cr.interventions.length ≤ x.length then
        Except.ok (predictive 0 (wrappedModel cr (handlersFromVector cr.interventions x))
          cr.guide cr.num_samples)
      else Except.error PyError.indexError := by
  unfold ComputeRisk.propagate_uncertainty pyroSetRngSeed
  rw [buildInterventionHandlersAux_eq]
  simp only [Nat.sub_zero, List.drop_zero]
  by_cases h : cr.interventions.length ≤ x.length
  · rw [if_pos h, if_pos h]
  · rw [if_neg h, if_neg h]

/-- C2: the body of `computeRisk.__call__` resets the pyro seed to the fixed
value 0 before sampling, so the risk scalar is independent of the incoming
global RNG state: two evaluations at the same `x` — whatever RNG state each
starts from — return the identical value, and forward propagation behaves
exactly as if the state had been 0. -/
theorem c2_seed_reset_determinism {μ γ ω σ : Type} (cr : ComputeRisk μ γ ω σ)
    (predictive : ℕ → WrappedModelSpec μ ω → Option γ → ℕ → σ)
    (x : List ℚ) (rng1 rng2 : ℕ) :
    cr.call predictive rng1 x = cr.call predictive rng2 x
    ∧ cr.propagate_uncertainty predictive rng1 x
        = cr.propagate_uncertainty predictive 0 x :=
  ⟨rfl, rfl⟩

/-- C7: with `k` declared (time, parameter) pairs and `x` at least `k` long,
`propagate_uncertainty` builds exactly `k` `StaticParameterIntervention`
handlers, the i-th pairing the i-th dictionary entry with `x[i]`, and hands
the complete handler list to the sampler together with the full sample count
`num_samples` — all `N` stochastic simulations run under all `k` handlers at
once. -/
theorem c7_handlers_built {μ γ ω σ : Type} (cr : ComputeRisk μ γ ω σ)
    (predictive : ℕ → WrappedModelSpec μ ω → Option γ → ℕ → σ)
    (rng_state : ℕ) (x : List ℚ)
    (h : cr.interventions.length ≤ x.length) :
    (handlersFromVector cr.interventions x).length = cr.interventions.length
    ∧ (∀ i, i < cr.interventions.length →
        (handlersFromVector cr.interventions x).getD i (StaticParameterIntervention 0 [])
          = StaticParameterIntervention ((cr.interventions.getD i (0, "")).1)
              [(((cr.interventions.getD i (0, "")).2),
                Intervention.const (x.getD i 0))])
    ∧ cr.propagate_uncertainty predictive rng_state x
        = Except.ok (predictive 0
            (wrappedModel cr (handlersFromVector cr.interventions x))
            cr.guide cr.num_samples) := by
  refine ⟨?_, ?_, ?_⟩
  · simp only [handlersFromVector, List.length_zipWith]
    omega
  · intro i hi
    have hix : i < x.length := lt_of_lt_of_le hi h
    have hiz : i < (handlersFromVector cr.interventions x).length := by
      simp only [handlersFromVector, List.length_zipWith]
      omega
    rw [List.getD_eq_getElem _ _ hiz, List.getD_eq_getElem _ _ hi,
      List.getD_eq_getElem _ _ hix]
    simp [handlersFromVector]
  · unfold ComputeRisk.propagate_uncertainty pyroSetRngSeed
    rw [buildInterventionHandlersAux_eq]
    simp only [Nat.sub_zero, List.drop_zero]
    rw [if_pos h]

/-- C7 (witness): the theorem instantiated at two declared pairs and the
three-component candidate `[5, 7, 9]`. -/
theorem c7_handlers_built_witness :
    demoComputeRisk2.interventions.length ≤ ([5, 7, 9] : List ℚ).length
    ∧ ((handlersFromVector demoComputeRisk2.interventions [5, 7, 9]).length
          = demoComputeRisk2.interventions.length
      ∧ (∀ i, i < demoComputeRisk2.interventions.length →
          (handlersFromVector demoComputeRisk2.interventions [5, 7, 9]).getD i
              (StaticParameterIntervention 0 [])
            = StaticParameterIntervention
                ((demoComputeRisk2.interventions.getD i (0, "")).1)
                [(((demoComputeRisk2.interventions.getD i (0, "")).2),
                  Intervention.const (([5, 7, 9] : List ℚ).getD i 0))])
      ∧ ComputeRisk.propagate_uncertainty demoComputeRisk2 demoPredictive 9 [5, 7, 9]
          = Except.ok (demoPredictive 0
              (wrappedModel demoComputeRisk2
                (handlersFromVector demoComputeRisk2.interventions [5, 7, 9]))
              demoComputeRisk2.guide demoComputeRisk2.num_samples)) :=
  ⟨by decide, c7_handlers_built demoComputeRisk2 demoPredictive 9 [5, 7, 9] (by decide)⟩

/-- C9: the `minimizer_kwargs` constructor argument cannot influence
`solve()`.  Two `solveOUU` constructions differing only in that argument
yield literally the same stored state — the attribute stores `dict.update`'s
`None` return — so `solve()` behaves identically on both, and the settings
`solve()` rebuilds always use method COBYLA with `tol = 1e-5` and a local
iteration budget equal to `maxfeval`. -/
theorem c9_minimizer_kwargs_ignored {κ δ : Type} (x0 : List ℚ)
    (objfun : List ℚ → ℚ) (constraints : κ) (mk1 mk2 : δ) (alg : String)
    (maxfeval maxiter : ℕ) (u_bounds : List ℚ × List ℚ)
    (localMin : MinimizerSettings κ → (List ℚ → ℚ) → List ℚ → List ℚ)
    (displacement : ℕ → List ℚ) (acceptWorse : ℕ → ℚ → Bool) :
    SolveOUU.init x0 objfun constraints mk1 alg maxfeval maxiter u_bounds
      = SolveOUU.init x0 objfun constraints mk2 alg maxfeval maxiter u_bounds
    ∧ (SolveOUU.init x0 objfun constraints mk1 alg maxfeval maxiter
        u_bounds).minimizer_kwargs = none
    ∧ (SolveOUU.init x0 objfun constraints mk1 alg maxfeval maxiter
          u_bounds).solve localMin displacement acceptWorse
        = (SolveOUU.init x0 objfun constraints mk2 alg maxfeval maxiter
          u_bounds).solve localMin displacement acceptWorse
    ∧ (solveMinimizerSettings (SolveOUU.init x0 objfun constraints mk1 alg
        maxfeval maxiter u_bounds)).method = "COBYLA"
    ∧ (solveMinimizerSettings (SolveOUU.init x0 objfun constraints mk1 alg
        maxfeval maxiter u_bounds)).tol = 1/100000
    ∧ (solveMinimizerSettings (SolveOUU.init x0 objfun constraints mk1 alg
        maxfeval maxiter u_bounds)).maxiter = maxfeval :=
  ⟨rfl, rfl, rfl, rfl, rfl, rfl⟩

/-- C10: Python's `if stepsize:` treats both `None` and an explicit zero
step size as falsy, so `stepsize=0` falls back to the derived value
`0.3 * norm(xmax - xmin)` exactly as the default does — a zero step size can
never be stored explicitly. -/
theorem c10_falsy_stepsize_fallback (xmin xmax : List ℚ) :
    RandomDisplacementBounds.initStepsize xmin xmax (some 0)
        = (0.3 : ℝ) * euclNormQ (List.zipWith (fun a b => a - b) xmax xmin)
    ∧ RandomDisplacementBounds.initStepsize xmin xmax none
        = (0.3 : ℝ) * euclNormQ (List.zipWith (fun a b => a - b) xmax xmin) := by
  constructor
  · simp [RandomDisplacementBounds.initStepsize]
  · rfl

/-- C5: without an explicit step size, `RandomDisplacementBounds` derives
`stepsize = 0.3 * norm(xmax - xmin)`; for `xmin=[0]`, `xmax=[1]` the derived
step size is exactly `0.3`. -/
theorem c5_derived_stepsize :
    (∀ xmin xmax : List ℚ,
      RandomDisplacementBounds.initStepsize xmin xmax none
        = (0.3 : ℝ) * euclNormQ (List.zipWith (fun a b => a - b) xmax xmin))
    ∧ RandomDisplacementBounds.initStepsize [0] [1] none = 0.3 := by
  refine ⟨fun _ _ => rfl, ?_⟩
  show (0.3 : ℝ) * euclNormQ [(1 : ℚ) - 0] = 0.3
  rw [euclNormQ]
  norm_num

/-- C4: whatever the displacement draw, `RandomDisplacementBounds.__call__`
clips the proposed point back into the box: under the precondition
`xmin ≤ xmax` component-wise, every component of the returned point lies in
`[xmin, xmax]`. -/
theorem c4_displacement_clipped (xmin xmax x u : List ℚ)
    (h : ∀ p ∈ List.zipWith Prod.mk xmin xmax, p.1 ≤ p.2) :
    inBox xmin xmax (RandomDisplacementBounds.call xmin xmax x u) := by
  intro i hi
  have hlen : (RandomDisplacementBounds.call xmin xmax x u).length
      = min (min x.length u.length) (min xmin.length xmax.length) := by
    simp [RandomDisplacementBounds.call, List.length_zipWith]
  rw [hlen] at hi
  have hixmin : i < xmin.length := by omega
  have hixmax : i < xmax.length := by omega
  have hizip : i < (List.zipWith Prod.mk xmin xmax).length := by
    rw [List.length_zipWith]
    omega
  have hmem := h _ (List.getElem_mem hizip)
  rw [List.getElem_zipWith] at hmem
  have hi' : i < (RandomDisplacementBounds.call xmin xmax x u).length := by
    rw [hlen]
    omega
  rw [List.getD_eq_getElem _ _ hi', List.getD_eq_getElem _ _ hixmin,
    List.getD_eq_getElem _ _ hixmax]
  simp only [RandomDisplacementBounds.call, List.getElem_zipWith, npClip]
  constructor
  · exact le_min (le_max_right _ _) hmem
  · exact min_le_right _ _

/-- C4 (witness): for unit bounds, the start point `[1/2]` and the
oversized draw `[2]`, the returned point stays in the unit box. -/
theorem c4_displacement_clipped_witness :
    (∀ p ∈ List.zipWith Prod.mk [(0 : ℚ)] [(1 : ℚ)], p.1 ≤ p.2)
    ∧ inBox [0] [1] (RandomDisplacementBounds.call [0] [1] [1/2] [2]) :=
  ⟨by decide, c4_displacement_clipped [0] [1] [1/2] [2] (by decide)⟩

/-- The global best point after one basin-hopping step is either a fresh
output of the local minimizer or the previous best: any property of every
local-minimizer output is preserved. -/
theorem bhStep_bestx_inv (P : List ℚ → Prop) (objfun : List ℚ → ℚ)
    (lm : (List ℚ → ℚ) → List ℚ → List ℚ) (take_step : List ℚ → List ℚ)
    (acceptWorse : ℚ → Bool) (st : BHState)
    (hP : ∀ y, P (lm objfun y)) (hst : P st.bestx) :
    P (bhStep objfun lm take_step acceptWorse st).bestx := by
  simp only [bhStep]
  split_ifs <;> first | exact hP _ | exact hst

/-- The basin-hopping loop preserves any property of every local-minimizer
output on the tracked global best. -/
theorem bh_foldl_bestx_inv (P : List ℚ → Prop) (objfun : List ℚ → ℚ)
    (lm : (List ℚ → ℚ) → List ℚ → List ℚ) (hP : ∀ y, P (lm objfun y)) :
    ∀ (l : List ℕ) (ts : ℕ → List ℚ → List ℚ) (ac : ℕ → ℚ → Bool) (st : BHState),
      P st.bestx →
      P ((l.foldl (fun st i => bhStep objfun lm (ts i) (ac i) st) st).bestx)
  | [], _, _, _, hst => hst
  | i :: t, ts, ac, st, hst => by
    rw [List.foldl_cons]
    exact bh_foldl_bestx_inv P objfun lm hP t ts ac _
      (bhStep_bestx_inv P objfun lm (ts i) (ac i) st hP hst)

/-- C3 (counterexample): `solve()` hands the local minimizer no box bounds
(only the caller's constraints), so a local-minimizer collaborator that
returns `[2]` makes `solve()` return the accepted policy `[2]`, outside the
unit box `u_bounds = ([0], [1])` — the claimed bounds guarantee fails on the
code. -/
theorem c3_counterexample :
    (demoSolveOUU.solve demoLocalMinOut demoDisplacement demoAcceptWorse).1 = [2]
    ∧ ¬ inBox demoSolveOUU.u_bounds.1 demoSolveOUU.u_bounds.2
        ((demoSolveOUU.solve demoLocalMinOut demoDisplacement demoAcceptWorse).1) := by
  refine ⟨rfl, ?_⟩
  show ¬ inBox [0] [1] [2]
  decide

/-- C3 (amended): every policy `solve()` returns is an output of the local
minimizer (whose settings carry no box bounds); whenever the local
minimizer's outputs all lie within `u_bounds`, the returned policy does
too.  The random-displacement proposals are always clipped into the box
(C4), but in-bounds output is otherwise the local minimizer's
responsibility. -/
theorem c3_bounds_if_local_minimizer_bounded {κ δ : Type} (s : SolveOUU κ δ)
    (localMin : MinimizerSettings κ → (List ℚ → ℚ) → List ℚ → List ℚ)
    (displacement : ℕ → List ℚ) (acceptWorse : ℕ → ℚ → Bool)
    (h : ∀ f y, inBox s.u_bounds.1 s.u_bounds.2
      (localMin (solveMinimizerSettings s) f y)) :
    inBox s.u_bounds.1 s.u_bounds.2
      ((s.solve localMin displacement acceptWorse).1) := by
  exact bh_foldl_bestx_inv (inBox s.u_bounds.1 s.u_bounds.2) s.objfun
    (localMin (solveMinimizerSettings s)) (fun y => h s.objfun y)
    (List.range s.maxiter) _ acceptWorse _ (h s.objfun s.x0)

/-- C3 (witness): with a local minimizer whose outputs stay at `[1]`, the
returned policy lies in the unit box. -/
theorem c3_bounds_witness :
    inBox [0] [1]
      ((demoSolveOUU2.solve demoLocalMinIn demoDisplacement demoAcceptWorse).1) :=
  c3_bounds_if_local_minimizer_bounded demoSolveOUU2 demoLocalMinIn demoDisplacement
    demoAcceptWorse (fun f y => by
      show inBox [0] [1] [1]
      decide)

/-- Attributes not named by any (target, intervention) pair are untouched by
the intervention callback. -/
theorem parameterInterventionFire_not_mem :
    ∀ (l : List (String × Intervention)) (dyn : String → ℚ) (nm : String),
      nm ∉ l.map Prod.fst → parameterInterventionFire l dyn nm = dyn nm
  | [], _, _, _ => rfl
  | (a, iv) :: t, dyn, nm, hn => by
    rw [List.map_cons, List.mem_cons] at hn
    push_neg at hn
    show parameterInterventionFire t
      (Function.update dyn a (intervene (dyn a) iv)) nm = dyn nm
    rw [parameterInterventionFire_not_mem t _ nm hn.2]
    exact Function.update_noteq hn.1 _ _

/-- C6: when the parameter-intervention callback fires on a model object
with distinct target names (dictionary keys), each targeted attribute is
read, transformed by its intervention — `intervention(old)` for a callable,
the constant otherwise — and written back on the same model object, which
the callback returns for the remainder of the run; attributes that are not
targets keep their values. -/
theorem c6_parameter_intervention_fire (intervention : List (String × Intervention))
    (dynamics_obj : String → ℚ)
    (hnd : (intervention.map Prod.fst).Nodup) :
    (∀ pr ∈ intervention,
      parameterInterventionFire intervention dynamics_obj pr.1
        = intervene (dynamics_obj pr.1) pr.2)
    ∧ ∀ nm, nm ∉ intervention.map Prod.fst →
        parameterInterventionFire intervention dynamics_obj nm = dynamics_obj nm := by
  revert hnd
  induction intervention generalizing dynamics_obj with
  | nil =>
    intro _
    exact ⟨fun pr hpr => absurd hpr (List.not_mem_nil pr),
      fun _ _ => rfl⟩
  | cons head t ih =>
    intro hnd
    obtain ⟨a, iv⟩ := head
    rw [List.map_cons, List.nodup_cons] at hnd
    obtain ⟨ha, ht⟩ := hnd
    constructor
    · intro pr hpr
      rw [List.mem_cons] at hpr
      rcases hpr with rfl | hpr
      · show parameterInterventionFire t
          (Function.update dynamics_obj a (intervene (dynamics_obj a) iv)) a
            = intervene (dynamics_obj a) iv
        rw [parameterInterventionFire_not_mem t _ a ha]
        exact Function.update_same a _ _
      · have hpr1 : pr.1 ∈ t.map Prod.fst := List.mem_map_of_mem Prod.fst hpr
        have hne : pr.1 ≠ a := fun he => ha (he ▸ hpr1)
        have hres :=
          (ih (Function.update dynamics_obj a (intervene (dynamics_obj a) iv)) ht).1 pr hpr
        rw [Function.update_noteq hne] at hres
        exact hres
    · intro nm hnm
      exact parameterInterventionFire_not_mem _ _ nm hnm

/-- C6 (witness): firing `{beta: const 2, gamma: old ↦ old + 1}` on a model
whose attributes all hold 10 sets `beta` to 2 and `gamma` to 11 and leaves
`delta` at 10. -/
theorem c6_parameter_intervention_fire_witness :
    (demoInterventionAssignment.map Prod.fst).Nodup
    ∧ parameterInterventionFire demoInterventionAssignment demoDynamicsObj "beta" = 2
    ∧ parameterInterventionFire demoInterventionAssignment demoDynamicsObj "gamma" = 11
    ∧ parameterInterventionFire demoInterventionAssignment demoDynamicsObj "delta" = 10 := by
  have hnd : (demoInterventionAssignment.map Prod.fst).Nodup := by decide
  have H := c6_parameter_intervention_fire demoInterventionAssignment demoDynamicsObj hnd
  refine ⟨hnd, ?_, ?_, ?_⟩
  · have h1 := H.1 ("beta", Intervention.const 2) (by
      simp [demoInterventionAssignment])
    rw [h1]
    rfl
  · have h2 := H.1 ("gamma", Intervention.func (fun old => old + 1)) (by
      simp [demoInterventionAssignment])
    rw [h2]
    show demoDynamicsObj "gamma" + 1 = 11
    norm_num [demoDynamicsObj]
  · have h3 := H.2 "delta" (by decide)
    rw [h3]
    rfl

/-- Splitting the at-or-above-`q1` filter at a higher threshold `q2`: sums
and lengths decompose into the band `[q1, q2)` and the tail at or above
`q2`. -/
theorem filter_ge_split (l : List ℚ) (q1 q2 : ℚ) (h : q1 ≤ q2) :
    (l.filter (fun z => q1 ≤ z)).sum
      = (l.filter (fun z => q1 ≤ z ∧ z < q2)).sum
        + (l.filter (fun z => q2 ≤ z)).sum
    ∧ (l.filter (fun z => q1 ≤ z)).length
      = (l.filter (fun z => q1 ≤ z ∧ z < q2)).length
        + (l.filter (fun z => q2 ≤ z)).length := by
  induction l with
  | nil => simp
  | cons a t ih =>
    obtain ⟨ihs, ihl⟩ := ih
    by_cases h2 : q2 ≤ a
    · have h1 : q1 ≤ a := h.trans h2
      have hmid : ¬ (q1 ≤ a ∧ a < q2) := fun hc => absurd hc.2 (not_lt.mpr h2)
      simp only [List.filter_cons, decide_eq_true_eq, if_pos h1, if_pos h2,
        if_neg hmid, List.sum_cons, List.length_cons]
      constructor
      · rw [ihs]; ring
      · rw [ihl]; omega
    · by_cases h1 : q1 ≤ a
      · have hmid : q1 ≤ a ∧ a < q2 := ⟨h1, lt_of_not_le h2⟩
        simp only [List.filter_cons, decide_eq_true_eq, if_pos h1, if_neg h2,
          if_pos hmid, List.sum_cons, List.length_cons]
        constructor
        · rw [ihs]; ring
        · rw [ihl]; omega
      · have hmid : ¬ (q1 ≤ a ∧ a < q2) := fun hc => absurd hc.1 h1
        simp only [List.filter_cons, decide_eq_true_eq, if_neg h1, if_neg h2,
          if_neg hmid]
        exact ⟨ihs, ihl⟩

/-- Raising the filter threshold removes only elements below the new
threshold, so the mean of the surviving tail cannot decrease. -/
theorem listMean_filter_ge_mono (l : List ℚ) (q1 q2 : ℚ) (h12 : q1 ≤ q2)
    (hB : l.filter (fun z => q2 ≤ z) ≠ []) :
    listMean (l.filter (fun z => q1 ≤ z))
      ≤ listMean (l.filter (fun z => q2 ≤ z)) := by
  obtain ⟨hs, hl⟩ := filter_ge_split l q1 q2 h12
  have hnB : 0 < (l.filter (fun z => q2 ≤ z)).length := List.length_pos.mpr hB
  have hCle : (l.filter (fun z => q1 ≤ z ∧ z < q2)).sum
      ≤ ((l.filter (fun z => q1 ≤ z ∧ z < q2)).length : ℚ) * q2 := by
    have hb : ∀ x ∈ l.filter (fun z => q1 ≤ z ∧ z < q2), x ≤ q2 := by
      intro x hx
      have hx' := List.of_mem_filter hx
      simp only [decide_eq_true_eq] at hx'
      exact le_of_lt hx'.2
    have := List.sum_le_card_nsmul _ q2 hb
    simpa [nsmul_eq_mul] using this
  have hBge : ((l.filter (fun z => q2 ≤ z)).length : ℚ) * q2
      ≤ (l.filter (fun z => q2 ≤ z)).sum := by
    have hb : ∀ x ∈ l.filter (fun z => q2 ≤ z), q2 ≤ x := by
      intro x hx
      have hx' := List.of_mem_filter hx
      simp only [decide_eq_true_eq] at hx'
      exact hx'
    have := List.card_nsmul_le_sum _ q2 hb
    simpa [nsmul_eq_mul] using this
  rw [listMean, listMean, hs, hl]
  have hd1 : (0 : ℚ) < (((l.filter (fun z => q1 ≤ z ∧ z < q2)).length
      + (l.filter (fun z => q2 ≤ z)).length : ℕ) : ℚ) := by
    exact_mod_cast Nat.add_pos_right _ hnB
  have hd2 : (0 : ℚ) < ((l.filter (fun z => q2 ≤ z)).length : ℚ) := by
    exact_mod_cast hnB
  rw [div_le_div_iff₀ hd1 hd2]
  push_cast
  nlinarith [mul_le_mul_of_nonneg_right hCle (le_of_lt hd2),
    mul_le_mul_of_nonneg_left hBge
      (show (0 : ℚ) ≤ ((l.filter (fun z => q1 ≤ z ∧ z < q2)).length : ℚ) by positivity)]

/-- The empirical quantile is monotone in the level (for levels at most
1). -/
theorem alpha_quantile_le_alpha_quantile (samples : List ℚ) (a1 a2 : ℚ)
    (hne : samples ≠ []) (h12 : a1 ≤ a2) (h2 : a2 ≤ 1) :
    alpha_quantile samples a1 ≤ alpha_quantile samples a2 := by
  have hn : 0 < samples.length := List.length_pos.mpr hne
  have hceil : ⌈a1 * (samples.length : ℚ)⌉ ≤ ⌈a2 * (samples.length : ℚ)⌉ :=
    Int.ceil_le_ceil (mul_le_mul_of_nonneg_right h12 (by positivity))
  have hc2 : ⌈a2 * (samples.length : ℚ)⌉ ≤ (samples.length : ℤ) := by
    rw [Int.ceil_le]
    push_cast
    exact mul_le_of_le_one_left (by positivity) h2
  have hslen : (List.insertionSort (· ≤ ·) samples).length = samples.length :=
    (List.perm_insertionSort (· ≤ ·) samples).length_eq
  have hi2 : (⌈a2 * (samples.length : ℚ)⌉).toNat - 1
      < (List.insertionSort (· ≤ ·) samples).length := by
    rw [hslen]
    omega
  have hi1 : (⌈a1 * (samples.length : ℚ)⌉).toNat - 1
      < (List.insertionSort (· ≤ ·) samples).length := by
    rw [hslen]
    omega
  have hi12 : (⌈a1 * (samples.length : ℚ)⌉).toNat - 1
      ≤ (⌈a2 * (samples.length : ℚ)⌉).toNat - 1 := by
    omega
  have hsorted : List.Sorted (· ≤ ·) (List.insertionSort (· ≤ ·) samples) :=
    List.sorted_insertionSort (· ≤ ·) samples
  rw [alpha_quantile, alpha_quantile,
    List.getD_eq_getElem _ _ hi1, List.getD_eq_getElem _ _ hi2]
  have := @List.Sorted.rel_get_of_le ℚ (· ≤ ·) _
    (List.insertionSort (· ≤ ·) samples) hsorted
    ⟨(⌈a1 * (samples.length : ℚ)⌉).toNat - 1, hi1⟩
    ⟨(⌈a2 * (samples.length : ℚ)⌉).toNat - 1, hi2⟩
    (Fin.mk_le_mk.mpr hi12)
  simpa using this

/-- The empirical quantile at a level at most 1 is one of the sample
values. -/
theorem alpha_quantile_mem (samples : List ℚ) (alpha : ℚ)
    (hne : samples ≠ []) (h1 : alpha ≤ 1) :
    alpha_quantile samples alpha ∈ samples := by
  have hn : 0 < samples.length := List.length_pos.mpr hne
  have hc : ⌈alpha * (samples.length : ℚ)⌉ ≤ (samples.length : ℤ) := by
    rw [Int.ceil_le]
    push_cast
    exact mul_le_of_le_one_left (by positivity) h1
  have hslen : (List.insertionSort (· ≤ ·) samples).length = samples.length :=
    (List.perm_insertionSort (· ≤ ·) samples).length_eq
  have hi : (⌈alpha * (samples.length : ℚ)⌉).toNat - 1
      < (List.insertionSort (· ≤ ·) samples).length := by
    rw [hslen]
    omega
  rw [alpha_quantile, List.getD_eq_getElem _ _ hi]
  have hmem := List.getElem_mem hi
  exact (List.mem_insertionSort (· ≤ ·)).mp hmem

/-- C8: for a fixed sample, the superquantile risk value is monotone
non-decreasing in the level: for `0 < a1 ≤ a2 < 1`, the risk reported at
`a2` is at least the risk reported at `a1`. -/
theorem c8_superquantile_monotone (samples : List ℚ) (a1 a2 : ℚ)
    (h1 : 0 < a1) (h12 : a1 ≤ a2) (h2 : a2 < 1) :
    alpha_superquantile samples a1 ≤ alpha_superquantile samples a2 := by
  by_cases hne : samples = []
  · subst hne
    simp [alpha_superquantile, listMean]
  · have hq12 : alpha_quantile samples a1 ≤ alpha_quantile samples a2 :=
      alpha_quantile_le_alpha_quantile samples a1 a2 hne h12 (le_of_lt h2)
    have hmem : alpha_quantile samples a2 ∈ samples :=
      alpha_quantile_mem samples a2 hne (le_of_lt h2)
    have hBne : samples.filter (fun z => alpha_quantile samples a2 ≤ z) ≠ [] := by
      intro hemp
      have hin : alpha_quantile samples a2
          ∈ samples.filter (fun z => alpha_quantile samples a2 ≤ z) :=
        List.mem_filter.mpr ⟨hmem, by simp⟩
      rw [hemp] at hin
      exact absurd hin (List.not_mem_nil _)
    rw [alpha_superquantile, alpha_superquantile]
    exact listMean_filter_ge_mono samples _ _ hq12 hBne

/-- C8 (witness): on the sample `[1, 2, 3]`, the superquantile at level 3/4
(which is 3) is at least the superquantile at level 1/2 (which is 5/2). -/
theorem c8_superquantile_monotone_witness :
    (0 < (1 : ℚ)/2) ∧ ((1 : ℚ)/2 ≤ 3/4) ∧ ((3 : ℚ)/4 < 1)
    ∧ alpha_superquantile [1, 2, 3] (1/2) ≤ alpha_superquantile [1, 2, 3] (3/4) :=
  ⟨by norm_num, by norm_num, by norm_num,
    c8_superquantile_monotone [1, 2, 3] (1/2) (3/4) (by norm_num) (by norm_num)
      (by norm_num)⟩
